import Mathlib

/-!
Verification of the bytecode VM of the repository
(`src/libinterp/parse-tree/pt-bytecode-vm.cc`).

Each namespace below shallowly embeds one opcode handler (or a small
cluster of handlers) of the dispatch loop in `vm::execute_code`,
translating the C++ control flow of the handler into an executable Lean
function over a small state type that keeps exactly the data the handler
inspects.  Machine integers are modelled as `Int`/`Nat` (no overflow is
relevant to any of the properties below), C `double`s as `ℚ` (only
comparisons, truncation to an integer index, and pass-through of values
occur in the embedded code, so exact rationals are a faithful carrier),
and fallible handlers return `Except`/sum types whose error constructors
mirror the VM's `error_type` tags.

The file is laid out with all definitions first and all theorems at the
end.
-/

namespace OctaveVM

/-! ## FOR_SETUP (`for_setup:` label, pt-bytecode-vm.cc lines 3059-3150)

The handler reads the iterable on the top of the stack, computes the
iteration count `n`, pushes `n` and a counter initialized to `-1`, and for
`n == 0` with a defined iterable assigns the iterable to the induction
slot.  The iterable is modelled by its type-class as queried by the
handler (`is_range`/`is_matrix_type`/`iscell`/`is_string`/`isstruct`/
`is_scalar_type`/`is_undefined`) together with its `dim_vector` redim'd
to 2 dimensions, which is all the handler looks at. -/

/-- Iterable shapes distinguished by the `for_setup` handler.  `range`
carries its element count (a range is always `1 × len`) and whether its
element type is one of the numeric types enumerated in the handler's
first branch.  `matrix`, `cellArr`, `str` and `struc` carry the
`dim_vector` rows/columns after `redim (2)`. -/
inductive Iterable where
  | scalar  (v : ℚ)
  | range   (len : ℕ) (numericType : Bool)
  | matrix  (rows cols : ℕ)
  | cellArr (rows cols : ℕ)
  | str     (rows cols : ℕ)
  | struc   (rows cols : ℕ)
  | undef
  deriving DecidableEq, Repr

/-- `octave_value::numel ()` for the shapes above (an undefined value has
`0 × 0` dims, a range is `1 × len`). -/
def Iterable.numel : Iterable → ℕ
  | .scalar _        => 1
  | .range len _     => len
  | .matrix r c      => r * c
  | .cellArr r c     => r * c
  | .str r c         => r * c
  | .struc r c       => r * c
  | .undef           => 0

/-- `is_defined ()`. -/
def Iterable.isDefined : Iterable → Bool
  | .undef => false
  | _      => true

/-- Rows of the `dim_vector` redim'd to 2. -/
def Iterable.rows2 : Iterable → ℕ
  | .scalar _    => 1
  | .range _ _   => 1
  | .matrix r _  => r
  | .cellArr r _ => r
  | .str r _     => r
  | .struc r _   => r
  | .undef       => 0

/-- Columns of the `dim_vector` redim'd to 2. -/
def Iterable.cols2 : Iterable → ℕ
  | .scalar _    => 1
  | .range len _ => len
  | .matrix _ c  => c
  | .cellArr _ c => c
  | .str _ c     => c
  | .struc _ c   => c
  | .undef       => 0

/-- Result of `for_setup`: the iteration count and counter pushed as the
two machine ints on the operand stack, and the value assigned to the
for-loop induction slot in the empty-iteration case (`none` when the
slot is left alone). -/
structure ForSetupResult where
  n        : ℕ
  counter  : Int
  assigned : Option Iterable
  deriving DecidableEq, Repr

/-- Embedding of the `for_setup:` handler.  Follows the branch structure
of the source: a numeric-typed range is canonicalized
(`maybe_as_trivial_range`, which keeps `numel`); otherwise ranges,
matrices, cells, strings and structs replace `n` by the column count of
the 2-redim'd dims when the row count is nonzero and by `0` otherwise;
scalars and undefined values keep `n = numel`.  Then `n` and a counter
`-1` are pushed, and for `n == 0` with a defined iterable the iterable is
assigned to the induction slot read from the following `FOR_COND`
opcode. -/
def forSetup (it : Iterable) : ForSetupResult :=
  let n0 := it.numel
  let isRange := match it with | .range _ _ => true | _ => false
  let isNumericRange := match it with | .range _ b => b | _ => false
  let n :=
    if isRange && isNumericRange then
      n0
    else if isRange ||
            (match it with | .matrix _ _ => true | _ => false) ||
            (match it with | .cellArr _ _ => true | _ => false) ||
            (match it with | .str _ _ => true | _ => false) ||
            (match it with | .struc _ _ => true | _ => false) then
      if it.rows2 ≠ 0 then it.cols2 else 0
    else
      n0
  { n := n
    counter := -1
    assigned := if n = 0 && it.isDefined then some it else none }

/-- The iteration count as the claim states it: element count for
scalars and ranges, column count for matrices/cells/strings/structs with
nonzero rows, zero for zero-row shapes. -/
def claimForCount : Iterable → ℕ
  | .scalar _      => 1
  | .range len _   => len
  | .matrix r c    => if r = 0 then 0 else c
  | .cellArr r c   => if r = 0 then 0 else c
  | .str r c       => if r = 0 then 0 else c
  | .struc r c     => if r = 0 then 0 else c
  | .undef         => 0

/-! ## Signal delivery points (`handle_signals:` lines 4306-4319,
`for_cond:` lines 3152-3211, `jmp_if:` lines 1688-1728, `jmp_ifn:` lines
1766-1806, `jmp_if_bool:`/`jmp_ifn_bool:` lines 1660-1686/1738-1764)

`octave_quit ()` — the host's signal-check function — appears in exactly
two handlers of the dispatch loop: `handle_signals` and `for_cond`.  The
conditional-jump handlers test the popped value's truth without any
signal check.  Each embedding below returns, along with its visible
effect, the number of `octave_quit` invocations the handler performs. -/

namespace Signals

/-- The condition value popped by `jmp_if`/`jmp_ifn`: a value whose
`type_id ()` is the VM's cached `m_bool_typeid` carrying its bit, any
other defined value carrying the result of its `is_true ()` host query,
or an undefined value. -/
inductive JmpVal where
  | boolV   (b : Bool)
  | defined (isTrue : Bool)
  | undef
  deriving DecidableEq, Repr

/-- Visible effect of one `jmp_if`/`jmp_ifn` execution:
whether the handler rewrote its opcode byte to the `_BOOL`
specialization, whether the jump is taken (`none` = the handler raised
`IF_UNDEFINED` and unwound), and how many times it called
`octave_quit`. -/
structure JmpOutcome where
  rewrittenToBool : Bool
  takeJump        : Option Bool
  octaveQuitCalls : ℕ
  deriving DecidableEq, Repr

/-- Embedding of `jmp_if:` (with its `jmp_if_bool:` specialization, to
which it rewrites itself when the popped value is bool-typed).  No
`octave_quit` call appears anywhere in either handler. -/
def jmpIfStep (v : JmpVal) : JmpOutcome :=
  match v with
  | .boolV b    => { rewrittenToBool := true,  takeJump := some b, octaveQuitCalls := 0 }
  | .defined t  => { rewrittenToBool := false, takeJump := some t, octaveQuitCalls := 0 }
  | .undef      => { rewrittenToBool := false, takeJump := none,   octaveQuitCalls := 0 }

/-- Embedding of `jmp_ifn:` (with `jmp_ifn_bool:`); jumps on a false
condition.  No `octave_quit` call appears in either handler. -/
def jmpIfnStep (v : JmpVal) : JmpOutcome :=
  match v with
  | .boolV b    => { rewrittenToBool := true,  takeJump := some (!b), octaveQuitCalls := 0 }
  | .defined t  => { rewrittenToBool := false, takeJump := some (!t), octaveQuitCalls := 0 }
  | .undef      => { rewrittenToBool := false, takeJump := none,      octaveQuitCalls := 0 }

/-- The two machine-int counters `for_cond` keeps on the stack: the
iteration counter (on top) and the total `n` below it. -/
structure ForCondState where
  counter : Int
  n       : Int
  deriving DecidableEq, Repr

/-- What one `for_cond` step does after its signal check: jump to the
`after` address, or write the element at the incremented counter into
the induction slot and fall through into the body. -/
inductive ForCondEffect where
  | jumpAfter
  | writeElem (newCounter : Int)
  deriving DecidableEq, Repr

/-- Embedding of the `for_cond:` handler: it calls `octave_quit ()`
first (the second component counts the invocations), then increments the
counter and either jumps past the loop or writes the next element. -/
def forCondStep (s : ForCondState) : ForCondEffect × ℕ :=
  let c := s.counter + 1
  if c = s.n then (.jumpAfter, 1) else (.writeElem c, 1)

/-- Embedding of the `handle_signals:` handler, whose whole body is one
guarded `octave_quit ()` call; returns the number of invocations. -/
def handleSignalsStep : ℕ := 1

end Signals

/-! ## RET return-value move (`ret:` label, lines 1292-1582, and
`copy_many_args_to_caller`, lines 7589-7609)

After a callee returns to a bytecode caller, `ret` restores the caller's
registers and moves return values onto the caller's operand stack.  The
embedding below covers the varargout expansion (lines 1475-1517) and the
move phase (lines 1519-1559).  A stack element holding a value is
`Option ℚ`, `none` standing for a nil/undefined `octave_value`. -/

namespace RetOp

/-- A value slot on the operand stack; `none` is nil/undefined. -/
abbrev OVal := Option ℚ

/-- Varargout expansion at a non-root return (lines 1475-1517): `rets`
are the declared return slots below the varargout cell; `cellContents`
is `some` of the cell's elements when the varargout slot is defined.
`max (1, n_args_caller_expects) - n_args_callee_has` elements of the
cell (clamped to `[0, n]`) are pushed behind the declared returns; an
undefined varargout contributes one nil when the caller expects
values. -/
def expandVarargout (expects : ℕ) (rets : List OVal) (cellContents : Option (List OVal)) :
    List OVal :=
  match cellContents with
  | some elems =>
      let want := max 1 expects
      let nToPush := min elems.length (want - rets.length)
      rets ++ elems.take nToPush
  | none => if expects ≠ 0 then rets ++ [(none : OVal)] else rets

/-- The move phase of `ret` (lines 1519-1559): `expects` is
`caller_nval_back` (the caller's requested return count popped from the
bookkeeping words), `rets` the callee's produced returns (first return
first), `overlap` the `sp + n_args_caller_expects >= caller_stack_end`
test selecting the copy-via-container slow path
(`copy_many_args_to_caller`).  The result lists the values pushed onto
the caller's stack, in push order. -/
def moveReturnsToCaller (expects : ℕ) (rets : List OVal) (overlap : Bool) : List OVal :=
  let has := rets.length
  let toMove := min expects has
  if expects = 0 then
    if has ≠ 0 then [rets.headD none]
    else [none]
  else if overlap then
    (rets.take toMove).reverse ++ List.replicate (expects - toMove) none
  else
    List.replicate (expects - toMove) none ++ (rets.take toMove).reverse

/-- The caller's operand stack after a normal non-root `RET`: the stack
as restored (top before the callee object was pushed) extended by the
moved return values. -/
def callerStackAfterRet (callerStack : List OVal) (expects : ℕ) (rets : List OVal)
    (overlap : Bool) : List OVal :=
  callerStack ++ moveReturnsToCaller expects rets overlap

end RetOp

/-! ## Generic/`_DBL` binary opcodes (labels `mul:`/`mul_dbl:` etc.,
lines 1268-1291, 2136-2170, 2664-2668)

The handler bodies are the macros `MAKE_BINOP_SELFMODIFYING` and
`MAKE_BINOP_SPECIALIZED` from `pt-bytecode-vm-internal.h`, which is not
part of this source tree; the two step functions below are modelled from
the spec (§4.3) as noted in their doc comments.  The host's typed
operator dispatch (§6.2: "binary … operator typed dispatch, plus a
lookup that returns a specialized function pointer for a given
(op,type,type)") is a table keyed by opcode and the two operand
type-ids. -/

namespace Binop

/-- The generic binary opcodes that carry a `_DBL` specialization in the
dispatch table. -/
inductive BOp where
  | add | sub | mul | div | le | le_eq | gr | gr_eq | eqc | neq | pow
  deriving DecidableEq, Repr

/-- A dynamically typed operand: its host `type_id ()` and its bit
pattern. -/
structure BVal where
  typeId : ℕ
  bits   : Int
  deriving DecidableEq, Repr

/-- The host's typed-dispatch table: one binary function per
(op, type-id, type-id) triple. -/
structure Host where
  table : BOp → ℕ → ℕ → (BVal → BVal → BVal)

/-- The host's typed operator dispatch: look the pair of operand
type-ids up in the table and apply the entry. -/
def Host.dispatch (h : Host) (op : BOp) (a b : BVal) : BVal :=
  h.table op a.typeId b.typeId a b

/-- VM-side cached data: the host and the scalar-double type-id cached
at VM construction (`m_scalar_typeid`). -/
structure VMCtx where
  host         : Host
  scalarTypeId : ℕ

/-- The precomputed scalar-double operator function (`m_fn_dbl_mul`
etc.): the dispatch-table entry for (op, scalar-double, scalar-double)
looked up once at VM construction. -/
def VMCtx.fnDbl (c : VMCtx) (op : BOp) : BVal → BVal → BVal :=
  c.host.table op c.scalarTypeId c.scalarTypeId

/-- The opcode byte of a binary-operation instruction: the generic form
or its `_DBL` specialization. -/
inductive BinInstr where
  | generic (op : BOp)
  | dbl     (op : BOp)
  deriving DecidableEq, Repr

/-- The operation an instruction byte denotes. -/
def BinInstr.bop : BinInstr → BOp
  | .generic op => op
  | .dbl op     => op

/-- Modelled from the spec: the body of `MAKE_BINOP_SPECIALIZED`
(`pt-bytecode-vm-internal.h`, not in this tree).  The `_DBL` handler
checks the two popped operands' type-ids against the cached scalar
type-id; on a match it pushes the result of the precomputed
scalar-double operator function, otherwise it rewrites its opcode byte
back to the generic form and re-dispatches to the generic handler, whose
scalar fast path is then unreachable, so the typed dispatch runs.
Returns the opcode byte after the step and the value pushed. -/
def execDbl (c : VMCtx) (op : BOp) (a b : BVal) : BinInstr × BVal :=
  if a.typeId = c.scalarTypeId ∧ b.typeId = c.scalarTypeId then
    (.dbl op, c.fnDbl op a b)
  else
    (.generic op, c.host.dispatch op a b)

/-- Modelled from the spec: the body of `MAKE_BINOP_SELFMODIFYING`
(`pt-bytecode-vm-internal.h`, not in this tree).  The generic handler
inspects the two popped operands' type-ids; when both equal the cached
scalar-double type-id it overwrites its own opcode byte with the `_DBL`
variant and executes it (which pushes the precomputed scalar-double
function's result), otherwise it pushes the typed-dispatch result and
leaves the opcode byte alone. -/
def execGeneric (c : VMCtx) (op : BOp) (a b : BVal) : BinInstr × BVal :=
  if a.typeId = c.scalarTypeId ∧ b.typeId = c.scalarTypeId then
    (.dbl op, c.fnDbl op a b)
  else
    (.generic op, c.host.dispatch op a b)

/-- One execution of a binary-operation instruction, dispatching on the
current opcode byte. -/
def stepBinop (c : VMCtx) : BinInstr → BVal → BVal → BinInstr × BVal
  | .generic op, a, b => execGeneric c op a b
  | .dbl op,     a, b => execDbl c op a b

/-- A concrete host/VM context used to instantiate the inline-cache
theorem: scalar-double type-id 0 and a dispatch table returning the sum
of the operand bit patterns. -/
def sampleCtx : VMCtx :=
  { host := { table := fun _ _ _ a b => { typeId := 0, bits := a.bits + b.bits } }
    scalarTypeId := 0 }

end Binop

/-! ## Scalar-indexing and scalar-subassign value model

Shared by the `INDEX_ID1_MAT_1D` and `SUBASSIGN_ID_MAT_1D/2D`
embeddings: C doubles as `ℚ`, `octave_idx_type` as `Int`, and the dense
double `NDArray` behind an `octave_matrix` as its `dim_vector` plus
column-major data. -/

namespace MatVals

/-- Conversion of a C `double` to `octave_idx_type`: truncation toward
zero (floor for nonnegative values, ceiling for negative ones). -/
def truncQ (q : ℚ) : Int := if 0 ≤ q then ⌊q⌋ else ⌈q⌉

/-- The `NDArray` held by an `octave_matrix`: its `dim_vector` (so
`rows ()`, `cols ()`, `ndims ()`, `numel ()` are derived) and
column-major element data. -/
structure NDArr where
  dims  : List Int
  elems : List ℚ
  deriving DecidableEq, Repr

def NDArr.rows (a : NDArr) : Int := a.dims.getD 0 0

def NDArr.cols (a : NDArr) : Int := a.dims.getD 1 0

def NDArr.ndims (a : NDArr) : ℕ := a.dims.length

def NDArr.numel (a : NDArr) : Int := a.dims.prod

/-- Stack/slot values as classified by the specialized handlers: a
scalar double (`type_id () == m_scalar_typeid`), a dense full numeric
matrix (`octave_matrix`, `type_id () == m_matrix_typeid`,
`is_full_num_matrix ()`), or any other type carrying its type-id. -/
inductive SVal where
  | sca     (x : ℚ)
  | fullMat (a : NDArr)
  | other   (tid : ℕ)
  deriving DecidableEq, Repr

end MatVals

/-! ## SUBASSIGN_ID_MAT_2D / SUBASSIGN_ID_MAT_1D
(`subassign_id_mat_2d:` lines 3459-3538, `subassign_id_mat_1d:` lines
3540-3601, generic `subassign_id:` lines 3603-3653)

The specialized scalar-into-matrix subassign handlers.  On a type
mismatch they change the opcode byte back to `SUBASSIGN_ID` and jump to
the generic handler; inside the `try` block, an out-of-bounds or
non-integer index only rewinds `ip` and jumps to the generic handler
without touching the opcode byte. -/

namespace Subasgn

open MatVals

/-- Outcome of one specialized subassign execution: the in-place element
write happened, or the generic `subassign_id` handler took over — with
the opcode byte rewritten to `SUBASSIGN_ID` (type-mismatch path) or left
as the specialized opcode (bounds/integrality path). -/
inductive SubasgnOut where
  | write           (a : NDArr)
  | fallbackRewrite
  | fallbackKeep
  deriving DecidableEq, Repr

/-- The entry type guard of `subassign_id_mat_2d` (lines 3471-3485):
rhs and both index args must be scalar doubles and the slot an
`octave_matrix`. -/
def typeGuard2d (rhs arg1 arg2 slotVal : SVal) : Bool :=
  match rhs, arg1, arg2, slotVal with
  | .sca _, .sca _, .sca _, .fullMat _ => true
  | _, _, _, _ => false

/-- Embedding of `subassign_id_mat_2d:`: with matching types it converts
the two one-based scalar indices to zero-based `octave_idx_type`s;
an out-of-range or non-integer row index, an out-of-range or
non-integer column index, or an array that is not 2-D sends execution to
the generic handler with the opcode byte kept; otherwise it stores the
rhs into the element (column-major).  A type mismatch rewrites the
opcode byte to `SUBASSIGN_ID` and runs the generic handler. -/
def subassignIdMat2d (rhs arg1 arg2 slotVal : SVal) : SubasgnOut :=
  match rhs, arg1, arg2, slotVal with
  | .sca val, .sca q1, .sca q2, .fullMat arr =>
      let i2 := truncQ (q2 - 1)
      let i1 := truncQ (q1 - 1)
      if i1 ≥ arr.rows ∨ i1 < 0 ∨ (i1 : ℚ) ≠ q1 - 1 then .fallbackKeep
      else if i2 ≥ arr.cols ∨ i2 < 0 ∨ (i2 : ℚ) ≠ q2 - 1 then .fallbackKeep
      else if arr.ndims ≠ 2 then .fallbackKeep
      else .write { arr with elems := arr.elems.set (i1 + i2 * arr.rows).toNat val }
  | _, _, _, _ => .fallbackRewrite

/-- The entry type guard of `subassign_id_mat_1d` (lines 3551-3564). -/
def typeGuard1d (rhs arg slotVal : SVal) : Bool :=
  match rhs, arg, slotVal with
  | .sca _, .sca _, .fullMat _ => true
  | _, _, _ => false

/-- Embedding of `subassign_id_mat_1d:`: with matching types it converts
the one-based scalar linear index; out-of-range (against `numel ()`) or
non-integer indices go to the generic handler with the opcode byte kept;
otherwise it stores the rhs at the linear position.  A type mismatch
rewrites the opcode byte to `SUBASSIGN_ID`. -/
def subassignIdMat1d (rhs arg slotVal : SVal) : SubasgnOut :=
  match rhs, arg, slotVal with
  | .sca val, .sca q, .fullMat arr =>
      let i := truncQ (q - 1)
      if i ≥ arr.numel ∨ i < 0 ∨ (i : ℚ) ≠ q - 1 then .fallbackKeep
      else .write { arr with elems := arr.elems.set i.toNat val }
  | _, _, _ => .fallbackRewrite

end Subasgn

/-! ## INDEX_ID1_MAT_1D and the generic INDEX_ID_NARGOUT1
(`index_id1_mat_1d:` lines 2173-2219, generic block `index_id1:` lines
2445-2561)

The scalar-read specialization for `M(i)` on a dense matrix.  With a
scalar index and a full numeric matrix it converts the index and raises
`err_invalid_index` itself for non-integer or non-positive values, then
reads the element through the range-checked accessor
`checked_full_matrix_elem`; only a type mismatch rewrites the opcode
byte back to `INDEX_ID_NARGOUT1` and jumps to the generic handler.  The
generic handler, in turn, rewrites itself to `INDEX_ID1_MAT_1D` whenever
its operand is a single scalar double and the object a full numeric
matrix (lines 2517-2528); otherwise it performs the host's
`simple_subsref`. -/

namespace IndexSpec

open MatVals

/-- The two opcode bytes involved in the `M(i)` specialization. -/
inductive IdxOpcode where
  | specializedMat1d   -- INDEX_ID1_MAT_1D
  | genericNargout1    -- INDEX_ID_NARGOUT1
  deriving DecidableEq, Repr

/-- Result of one indexing execution: a value pushed, an index error
raised and unwound (`err_invalid_index` or the checked accessor's range
error), or the generic handler's external `simple_subsref` call on a
receiver/argument pair outside the specialization. -/
inductive IdxRes where
  | pushed (v : ℚ)
  | indexErr
  | hostSubsref
  deriving DecidableEq, Repr

/-- `checked_full_matrix_elem (i)` (host interface, §6.2): zero-based
range-checked element read. -/
def checkedElem (arr : NDArr) (i : Int) : Except Unit ℚ :=
  if 0 ≤ i ∧ i < arr.numel then .ok (arr.elems.getD i.toNat 0) else .error ()

/-- The `try` body of `index_id1_mat_1d:` (lines 2194-2211): truncate
the scalar index, raise `err_invalid_index` when the index is not an
integer or not positive, then read element `idx - 1` through the checked
accessor. -/
def idxCore (q : ℚ) (arr : NDArr) : Except Unit ℚ :=
  let idx := truncQ q
  if (idx : ℚ) ≠ q then .error ()
  else if idx ≤ 0 then .error ()
  else checkedElem arr (idx - 1)

/-- Embedding of `index_id1_mat_1d:`: returns the opcode byte at this
code position after the execution together with the result. -/
def indexId1Mat1d (arg mat : SVal) : IdxOpcode × IdxRes :=
  match arg, mat with
  | .sca q, .fullMat arr =>
      (.specializedMat1d,
        match idxCore q arr with
        | .ok v => .pushed v
        | .error _ => .indexErr)
  | _, _ =>
      -- type mismatch: the opcode byte is changed to INDEX_ID_NARGOUT1
      -- and the generic handler runs; its re-specialization test fails
      -- on the same mismatched operands, so it reaches simple_subsref.
      (.genericNargout1, .hostSubsref)

/-- Embedding of the generic `INDEX_ID_NARGOUT1` handler on a
single-argument index (label `index_id1:` and the OCT_SUBSREF arm): for
one scalar-double argument on a full numeric matrix it rewrites the
opcode byte to `INDEX_ID1_MAT_1D` (lines 2517-2528) and executes the
specialization; anything else reaches the host's `simple_subsref`. -/
def indexIdNargout1 (arg mat : SVal) : IdxOpcode × IdxRes :=
  match arg, mat with
  | .sca q, .fullMat arr =>
      (.specializedMat1d,
        match idxCore q arr with
        | .ok v => .pushed v
        | .error _ => .indexErr)
  | _, _ => (.genericNargout1, .hostSubsref)

end IndexSpec

/-! ## ASSIGNN (`assign_n:` label, lines 3329-3457)

Multi-target assignment: pop one stack value per code-stream slot,
expanding cs-lists, and assign each produced value to its slot; an
undefined value is tolerated only when the handler's ignore test
accepts it, otherwise the handler raises
"element number N undefined in return list" and unwinds. -/

namespace AssignN

/-- The frame data the undefined-value test consults: the name table,
the `IGNORED` auto-variable (a sorted matrix of ignored output numbers,
or undefined), and the signed `n_returns` byte from the frame header. -/
structure Frame where
  names       : List (List Char)
  ignoredVar  : Option (List Int)
  rawNReturns : Int
  deriving Repr

/-- `N_RETURNS ()` normalization in the handler (lines 3371-3375):
`-128` (anonymous function) counts as 1, other negative values
(varargout) by magnitude. -/
def nReturns (raw : Int) : Int :=
  if raw = -128 then 1 else if raw < 0 then -raw else raw

/-- `name.size () >= 2 && name[0] == '%' && name[1] == '~'`. -/
def beginsBlackHole : List Char → Bool
  | '%' :: '~' :: _ => true
  | _               => false

/-- `Matrix::lookup (v)` on the sorted ignore matrix: the number of
elements `≤ v` (the index of the last such element, one-based). -/
def sortedLookup (m : List Int) (v : Int) : ℕ :=
  (m.filter (fun x => decide (x ≤ v))).length

/-- The handler's acceptance test for an undefined value headed for
`slot` (lines 3356-3391 / 3408-3443): start from the `%~` name test;
then, when the `IGNORED` auto-variable is defined and the slot is a
return slot, *overwrite* the flag with the matrix-membership test of the
slot's output number. -/
def isIgnoredSlot (f : Frame) (slot : ℕ) : Bool :=
  let nameOk := beginsBlackHole (f.names.getD slot [])
  match f.ignoredVar with
  | none => nameOk
  | some mat =>
      let nr := nReturns f.rawNReturns
      if (slot : Int) < nr then
        let outputnum : Int := nr - 1 - (slot : Int)
        let idx := sortedLookup mat outputnum
        decide (0 < idx) && decide (mat.getD (idx - 1) 0 = outputnum)
      else nameOk

/-- The error text `"element number " + (n_actual + 1) + " undefined in
return list"`. -/
def elementMsg (n : ℕ) : String :=
  "element number " ++ toString n ++ " undefined in return list"

/-- A popped stack value: a single value (possibly undefined) or a
cs-list to be expanded. -/
inductive RVal where
  | single (v : Option ℚ)
  | cs     (vs : List (Option ℚ))
  deriving DecidableEq, Repr

/-- The (slot, value) pairs one popped stack value contributes: a
cs-list assigns each of its elements to the same slot. -/
def pairsOfArg : RVal → ℕ → List (ℕ × Option ℚ)
  | .single v, s => [(s, v)]
  | .cs vs,    s => vs.map (fun v => (s, v))

/-- Assign a run of expanded (slot, value) pairs, threading `n_actual`:
an undefined value at a non-ignored slot raises the element error with
the one-based position; every accepted value (defined or ignored) is
stored and counted. -/
def processElems (f : Frame) : List (ℕ × Option ℚ) → ℕ →
    Except String (List (ℕ × Option ℚ))
  | [], _ => .ok []
  | (s, v) :: rest, nActual =>
      if v = none ∧ ¬ isIgnoredSlot f s then
        .error (elementMsg (nActual + 1))
      else
        match processElems f rest (nActual + 1) with
        | .error e => .error e
        | .ok ws => .ok ((s, v) :: ws)

/-- The `assign_n` do-while loop: pop one stack value and read one slot
per iteration, assign the value's expansion, and continue while
`n_actual < n_slots`. -/
def assignNLoopFrom (f : Frame) (nSlots : ℕ) :
    List RVal → List ℕ → ℕ → Except String (List (ℕ × Option ℚ))
  | arg :: args, slot :: slots, nActual =>
      match processElems f (pairsOfArg arg slot) nActual with
      | .error e => .error e
      | .ok ws =>
          let nActual' := nActual + (pairsOfArg arg slot).length
          if nActual' < nSlots then
            match assignNLoopFrom f nSlots args slots nActual' with
            | .error e => .error e
            | .ok ws' => .ok (ws ++ ws')
          else .ok ws
  | _, _, _ => .ok []

/-- Embedding of the whole `assign_n:` handler: `nSlots` is `arg0`, the
stack values are popped top-first, the slots read from the code
stream. -/
def assignN (f : Frame) (nSlots : ℕ) (args : List RVal) (slots : List ℕ) :
    Except String (List (ℕ × Option ℚ)) :=
  assignNLoopFrom f nSlots args slots 0

/-- The expanded (slot, value) sequence of a run of popped values, used
to state positions. -/
def expandPairs : List RVal → List ℕ → List (ℕ × Option ℚ)
  | arg :: args, slot :: slots => pairsOfArg arg slot ++ expandPairs args slots
  | _, _ => []

/-- The claim's acceptance predicate, literally: the slot's name begins
with `%~`, or the position's output number appears in the `IGNORED`
matrix. -/
def claimAccept (f : Frame) (slot : ℕ) : Bool :=
  beginsBlackHole (f.names.getD slot []) ||
    (match f.ignoredVar with
     | none => false
     | some mat => decide ((nReturns f.rawNReturns - 1 - (slot : Int)) ∈ mat))

end AssignN

/-! ## APPEND_CELL (`append_cell:` label, lines 4369-4551, with
`push_cell:` lines 4336-4367)

Cell construction: a cell with a size guess and two int64 counters are
pushed; each element argument is followed by an `APPEND_CELL` whose
`arg0` marks the last append of a row with a terminal kind 1-4.  The
embedding tracks the cell's `dim_vector`, the element writes performed,
and the two counters. -/

namespace CellBuild

/-- One appended element: a cs-list (spread into the row), a defined
single value, or an undefined value (adds nothing). -/
inductive CArg where
  | cs       (vs : List ℚ)
  | val      (v : ℚ)
  | undefArg
  deriving DecidableEq, Repr

/-- The builder triple on the stack: the cell being built (dims plus the
writes performed into it, newest first) and the column/row counters. -/
structure CellState where
  rows   : Int
  cols   : Int
  writes : List (Int × Int × ℚ)
  iCol   : Int
  iRow   : Int
  deriving DecidableEq, Repr

/-- `PUSH_CELL rows cols`: the size-guess cell plus zeroed counters. -/
def pushCell (r c : Int) : CellState :=
  { rows := r, cols := c, writes := [], iCol := 0, iRow := 0 }

/-- Embedding of `append_cell:`.  `last` is `arg0` (0 for a non-terminal
append; terminal kinds: 1 middle row, 2 last row of many, 3 only row,
4 first row of many).  Errors model the "number of columns must match"
execution error. -/
def appendCell (last : Int) (ov : CArg) (st : CellState) : Except String CellState :=
  -- insertion phase (lines 4423-4475)
  let st :=
    match ov with
    | .cs vs =>
        let n : Int := vs.length
        let st :=
          if st.iRow = 0 ∧ st.iCol + n > st.cols then
            { st with cols := st.iCol + n }
          else st
        let rowWrites :=
          (List.range vs.length).map
            (fun (i : ℕ) => (st.iRow, st.iCol + (i : Int), vs.getD i 0))
        let st :=
          if st.iCol + n ≤ st.cols then
            { st with writes := rowWrites ++ st.writes }
          else st
        { st with iCol := st.iCol + n }
    | .val v =>
        let st :=
          if st.iRow = 0 ∧ st.iCol ≥ st.cols then
            { st with rows := 1, cols := st.iCol + 1 }
          else st
        let st :=
          if st.iCol < st.cols then
            { st with writes := (st.iRow, st.iCol, v) :: st.writes }
          else st
        { st with iCol := st.iCol + 1 }
    | .undefArg => st
  -- terminal phase (lines 4477-4549)
  if last = 1 then
    if st.iCol ≠ 0 ∧ st.iCol ≠ st.cols then
      .error "number of columns must match"
    else
      .ok { st with iRow := st.iRow + (if st.iCol ≠ 0 then 1 else 0), iCol := 0 }
  else if last = 2 then
    if st.iCol ≠ 0 ∧ st.iCol ≠ st.cols then
      .error "number of columns must match"
    else
      let iRowIdx := st.iRow + (if st.iCol ≠ 0 then 1 else if st.cols = 0 then 1 else 0)
      if iRowIdx ≠ st.rows then .ok { st with rows := iRowIdx }
      else .ok st
  else if last = 3 then
    if st.iCol < st.cols then
      .ok { st with rows := if st.iCol ≠ 0 then 1 else 0, cols := st.iCol }
    else .ok st
  else if last = 4 then
    if st.iCol < st.cols then
      .ok { st with cols := st.iCol, iCol := 0, iRow := st.iRow + 1 }
    else .ok { st with iCol := 0, iRow := st.iRow + 1 }
  else .ok st

/-- The scenario `a = {}; c = {a{:}, a{:}};`: `PUSH_CELL 1 2` followed by
two `APPEND_CELL`s of the empty cs-list, the second with terminal kind
`last = 3`. -/
def emptyCsListScenario : Except String CellState :=
  match appendCell 0 (.cs []) (pushCell 1 2) with
  | .error e => .error e
  | .ok st1 => appendCell 3 (.cs []) st1

/-- `size` of the built cell (rows, cols) on a successful build. -/
def sizeOfResult : Except String CellState → Option (Int × Int)
  | .ok st => some (st.rows, st.cols)
  | .error _ => none

end CellBuild

/-! ## FOR_COMPLEX_COND key/value slot writes (`for_complex_cond:`
label, lines 4021-4077)

At a non-terminating step of a struct for-loop, the next field's name is
written into the key slot and its contents into the value slot.  A slot
holds either a direct value or a global/persistent reference wrapper;
per the slot discipline, a write must go through the written slot's own
wrapper setter.  The source's key-slot write, however, is guarded by
`ov_val.is_ref ()` — the *value* slot's wrapper status (lines
4066-4074). -/

namespace ForComplex

/-- A value a slot can hold: a field-name string or field contents. -/
inductive WVal where
  | keyStr   (s : List Char)
  | contents (q : ℚ)
  deriving DecidableEq, Repr

/-- A local-variable slot: a direct value (possibly undefined) or a
global/persistent reference wrapper identified by the binding it
forwards to. -/
inductive SlotVal where
  | direct  (v : Option WVal)
  | refWrap (gid : ℕ)
  deriving DecidableEq, Repr

/-- The state the two writes touch: the key and value slots and the
process-wide store behind reference wrappers (newest binding first). -/
structure FCState where
  keySlot : SlotVal
  valSlot : SlotVal
  store   : List (ℕ × WVal)
  deriving DecidableEq, Repr

/-- A write through a wrapper's setter: record the new binding. -/
def setStore (st : List (ℕ × WVal)) (g : ℕ) (v : WVal) : List (ℕ × WVal) :=
  (g, v) :: st

/-- The two slot writes of a non-terminating `for_complex_cond` step for
the next field (name `key`, contents `c`), translated line by line:
the value write tests `ov_val.is_ref ()` and goes through the value
slot's setter or stores directly; the key write *again* tests
`ov_val.is_ref ()` (not the key slot) — when that is true it calls
`ov_key.ref_rep ()->set_value (key)`, which on a non-ref key slot is an
invalid rep cast (modelled as `.error`), and when false it stores the
name directly into the key slot even if the key slot holds a wrapper. -/
def forComplexCondWrite (key : List Char) (c : ℚ) (st : FCState) :
    Except Unit FCState :=
  let st1 :=
    match st.valSlot with
    | .refWrap g => { st with store := setStore st.store g (.contents c) }
    | .direct _  => { st with valSlot := .direct (some (.contents c)) }
  let valIsRefAfter : Bool := match st1.valSlot with | .refWrap _ => true | _ => false
  if valIsRefAfter then
    match st1.keySlot with
    | .refWrap g => .ok { st1 with store := setStore st1.store g (.keyStr key) }
    | .direct _  => .error ()
  else
    .ok { st1 with keySlot := .direct (some (.keyStr key)) }

/-- The write the claim (and the slot discipline, spec §3 invariant 3)
prescribes: each slot's write is routed by that slot's own wrapper
status. -/
def claimedWrite (key : List Char) (c : ℚ) (st : FCState) : FCState :=
  let st1 :=
    match st.valSlot with
    | .refWrap g => { st with store := setStore st.store g (.contents c) }
    | .direct _  => { st with valSlot := .direct (some (.contents c)) }
  match st1.keySlot with
  | .refWrap g => { st1 with store := setStore st1.store g (.keyStr key) }
  | .direct _  => { st1 with keySlot := .direct (some (.keyStr key)) }

end ForComplex

/-! ## ASSIGN slow path (`assign:` lines 1583-1602 and `assign_dispath:`
lines 1604-1658)

The slow path of `ASSIGN slot` handles a cs-list rhs: an empty cs-list
raises `INVALID_N_EL_RHS_IN_ASSIGNMENT`; otherwise the first element
replaces the rhs.  An undefined rhs (in particular an undefined first
cs-list element) then raises `RHS_UNDEF_IN_ASSIGNMENT`; otherwise the
value is stored into the slot, through the slot's reference wrapper when
present. -/

namespace AssignOp

/-- Error tags raised by the slow assign path. -/
inductive ATag where
  | invalidNElRhsInAssignment
  | rhsUndefInAssignment
  deriving DecidableEq, Repr

/-- The rhs on the stack top: a cs-list or a single value; `none` is an
undefined value. -/
inductive Rhs where
  | csl   (vs : List (Option ℚ))
  | plain (v : Option ℚ)
  deriving DecidableEq, Repr

/-- A slot: direct value or global/persistent reference wrapper. -/
inductive ASlot where
  | direct  (v : Option ℚ)
  | refWrap (gid : ℕ)
  deriving DecidableEq, Repr

/-- Embedding of `assign_dispath:` for a cs-list or plain rhs: returns
the slot and wrapper store after the assignment, or the error tag pushed
before the jump to `unwind` (on error nothing is written).  `store` is
the process-wide state behind reference wrappers. -/
def assignDispatch (slot : ASlot) (store : List (ℕ × ℚ)) (rhs : Rhs) :
    Except ATag (ASlot × List (ℕ × ℚ)) :=
  let firstOf : Rhs → Except ATag (Option ℚ) := fun r =>
    match r with
    | .csl [] => .error .invalidNElRhsInAssignment
    | .csl (v :: _) => .ok v
    | .plain v => .ok v
  match firstOf rhs with
  | .error e => .error e
  | .ok v =>
      match v with
      | none => .error .rhsUndefInAssignment
      | some x =>
          match slot with
          | .direct _  => .ok (.direct (some x), store)
          | .refWrap g => .ok (.refWrap g, (g, x) :: store)

end AssignOp

/-! ## Theorems -/

/-- On a sorted ignore matrix, the handler's hit test
`lookup (v) > 0 && m (lookup (v) - 1) == v` is exactly membership. -/
theorem assignn_sorted_lookup_mem (v : Int) :
    ∀ m : List Int, m.Sorted (· ≤ ·) →
      ((0 < AssignN.sortedLookup m v ∧
        m.getD (AssignN.sortedLookup m v - 1) 0 = v) ↔ v ∈ m) := by
  intro m
  induction m with
  | nil =>
      intro _
      simp [AssignN.sortedLookup]
  | cons a t ih =>
      intro hs
      have hst : t.Sorted (· ≤ ·) := hs.of_cons
      have hall : ∀ x ∈ t, a ≤ x := (List.pairwise_cons.mp hs).1
      by_cases hav : a ≤ v
      · have hl : AssignN.sortedLookup (a :: t) v = AssignN.sortedLookup t v + 1 := by
          simp [AssignN.sortedLookup, hav]
        rcases Nat.eq_zero_or_pos (AssignN.sortedLookup t v) with hk | hk
        · have hvt : v ∉ t := by
            intro hvt
            have hmem : v ∈ t.filter (fun x => decide (x ≤ v)) :=
              List.mem_filter.mpr ⟨hvt, by simp⟩
            have hpos : 0 < (t.filter (fun x => decide (x ≤ v))).length :=
              List.length_pos.mpr (List.ne_nil_of_mem hmem)
            have : AssignN.sortedLookup t v ≠ 0 := by
              simp only [AssignN.sortedLookup]
              omega
            exact this hk
          rw [hl, hk]
          constructor
          · rintro ⟨-, hget⟩
            simp only [List.getD] at hget
            simp at hget
            simp [hget]
          · intro hv
            rcases List.mem_cons.mp hv with h | h
            · subst h; simp
            · exact absurd h hvt
        · have harrow : t.getD (AssignN.sortedLookup t v - 1) 0 = v ↔ v ∈ t := by
            have := ih hst
            constructor
            · intro hg; exact this.mp ⟨hk, hg⟩
            · intro hv; exact (this.mpr hv).2
          have hmem_a : v = a → v ∈ t := by
            intro hva
            have hne : t.filter (fun x => decide (x ≤ v)) ≠ [] := by
              intro hnil
              simp [AssignN.sortedLookup, hnil] at hk
            rcases List.exists_mem_of_ne_nil _ hne with ⟨x, hx⟩
            rcases List.mem_filter.mp hx with ⟨hxt, hxle⟩
            have hx_le : x ≤ v := by simpa using hxle
            have ha_le : a ≤ x := hall x hxt
            have : x = v := le_antisymm hx_le (hva ▸ ha_le)
            exact this ▸ hxt
          rw [hl]
          have hgd : (a :: t).getD (AssignN.sortedLookup t v + 1 - 1) 0 =
              t.getD (AssignN.sortedLookup t v - 1) 0 := by
            rcases Nat.exists_eq_add_of_lt hk with ⟨n, hn⟩
            have h1 : AssignN.sortedLookup t v + 1 - 1 = AssignN.sortedLookup t v :=
              rfl
            rw [h1]
            cases hkk : AssignN.sortedLookup t v with
            | zero => omega
            | succ n => simp
          rw [hgd, harrow]
          constructor
          · rintro ⟨-, hv⟩
            exact List.mem_cons_of_mem a hv
          · intro hv
            rcases List.mem_cons.mp hv with h | h
            · exact ⟨Nat.succ_pos _, hmem_a h⟩
            · exact ⟨Nat.succ_pos _, h⟩
      · have hl0 : AssignN.sortedLookup (a :: t) v = 0 := by
          have hfil : (a :: t).filter (fun x => decide (x ≤ v)) = [] := by
            apply List.filter_eq_nil_iff.mpr
            intro x hx
            rcases List.mem_cons.mp hx with h | h
            · subst h; simpa using hav
            · have : a ≤ x := hall x h
              simp only [decide_eq_true_eq]
              intro hxv
              exact hav (le_trans this hxv)
          simp [AssignN.sortedLookup, hfil]
        rw [hl0]
        constructor
        · rintro ⟨h0, -⟩
          exact absurd h0 (by simp)
        · intro hv
          rcases List.mem_cons.mp hv with h | h
          · exact absurd (h ▸ le_refl v) hav
          · exact absurd (le_trans (hall v h) (le_refl v)) hav

/-- Any error `processElems` produces is the element message at the
one-based position (counting from `n_actual = n`) of the first
undefined, non-ignored value, all earlier values being assigned. -/
theorem assignn_process_elems_error (f : AssignN.Frame) :
    ∀ (pairs : List (ℕ × Option ℚ)) (n : ℕ) (msg : String),
      AssignN.processElems f pairs n = .error msg →
      ∃ k s, msg = AssignN.elementMsg (n + k + 1) ∧
        pairs.get? k = some (s, (none : Option ℚ)) ∧
        AssignN.isIgnoredSlot f s = false ∧
        ∀ j < k, ∃ sj vj, pairs.get? j = some (sj, vj) ∧
          (vj ≠ none ∨ AssignN.isIgnoredSlot f sj = true) := by
  intro pairs
  induction pairs with
  | nil =>
      intro n msg h
      simp [AssignN.processElems] at h
  | cons p rest ih =>
      intro n msg h
      obtain ⟨s, v⟩ := p
      by_cases hbad : v = none ∧ ¬ AssignN.isIgnoredSlot f s
      · have hmsg : msg = AssignN.elementMsg (n + 1) := by
          simp [AssignN.processElems, hbad] at h
          exact h.symm
        refine ⟨0, s, by simpa using hmsg, by simp [hbad.1], ?_, by omega⟩
        simpa using hbad.2
      · cases hrec : AssignN.processElems f rest (n + 1) with
        | ok w =>
            rw [AssignN.processElems, if_neg hbad, hrec] at h
            simp at h
        | error e =>
            have hme : msg = e := by
              rw [AssignN.processElems, if_neg hbad, hrec] at h
              simp at h
              exact h.symm
            obtain ⟨k, s', hm, hget, hign, hprior⟩ := ih (n + 1) e hrec
            refine ⟨k + 1, s', ?_, by simpa using hget, hign, ?_⟩
            · rw [hme, hm]
              congr 1
              omega
            · intro j hj
              cases j with
              | zero =>
                  refine ⟨s, v, by simp, ?_⟩
                  by_cases hv : v = none
                  · right
                    by_contra hni
                    exact hbad ⟨hv, by simpa using hni⟩
                  · exact Or.inl hv
              | succ j' =>
                  obtain ⟨sj, vj, hg, ho⟩ := hprior j' (by omega)
                  exact ⟨sj, vj, by simpa using hg, ho⟩

/-- When `processElems` succeeds every processed value was defined or
ignored. -/
theorem assignn_process_elems_ok (f : AssignN.Frame) :
    ∀ (pairs : List (ℕ × Option ℚ)) (n : ℕ) (ws : List (ℕ × Option ℚ)),
      AssignN.processElems f pairs n = .ok ws →
      ∀ j s v, pairs.get? j = some (s, v) →
        (v ≠ none ∨ AssignN.isIgnoredSlot f s = true) := by
  intro pairs
  induction pairs with
  | nil =>
      intro n ws _ j s v hg
      simp at hg
  | cons p rest ih =>
      intro n ws h j s v hg
      obtain ⟨s0, v0⟩ := p
      by_cases hbad : v0 = none ∧ ¬ AssignN.isIgnoredSlot f s0
      · simp [AssignN.processElems, hbad] at h
      · cases hrec : AssignN.processElems f rest (n + 1) with
        | ok w =>
            cases j with
            | zero =>
                simp at hg
                obtain ⟨hs, hv⟩ := hg
                rw [← hv, ← hs]
                by_cases hv0 : v0 = none
                · right
                  by_contra hni
                  exact hbad ⟨hv0, by simpa using hni⟩
                · exact Or.inl hv0
            | succ j' =>
                exact ih (n + 1) w hrec j' s v (by simpa using hg)
        | error e =>
            rw [AssignN.processElems, if_neg hbad, hrec] at h
            simp at h

/-- When every value is defined or ignored, `processElems` succeeds. -/
theorem assignn_process_elems_total (f : AssignN.Frame) :
    ∀ (pairs : List (ℕ × Option ℚ)) (n : ℕ),
      (∀ j s v, pairs.get? j = some (s, v) →
        (v ≠ none ∨ AssignN.isIgnoredSlot f s = true)) →
      ∃ ws, AssignN.processElems f pairs n = .ok ws := by
  intro pairs
  induction pairs with
  | nil =>
      intro n _
      exact ⟨[], rfl⟩
  | cons p rest ih =>
      intro n hgood
      obtain ⟨s0, v0⟩ := p
      have hhead := hgood 0 s0 v0 (by simp)
      have hbad : ¬ (v0 = none ∧ ¬ AssignN.isIgnoredSlot f s0) := by
        rcases hhead with h | h
        · exact fun hc => h hc.1
        · exact fun hc => hc.2 (by simp [h])
      obtain ⟨ws, hws⟩ := ih (n + 1) (fun j s v hg => hgood (j + 1) s v (by simpa using hg))
      refine ⟨(s0, v0) :: ws, ?_⟩
      rw [AssignN.processElems, if_neg hbad, hws]

/-- Any error of the `assign_n` loop is the element message at the
one-based position of the first undefined, non-ignored value in the
expanded (slot, value) sequence, all earlier values being assigned. -/
theorem assignn_loop_error (f : AssignN.Frame) (nSlots : ℕ) :
    ∀ (args : List AssignN.RVal) (slots : List ℕ) (nActual : ℕ) (msg : String),
      AssignN.assignNLoopFrom f nSlots args slots nActual = .error msg →
      ∃ k s, msg = AssignN.elementMsg (nActual + k + 1) ∧
        (AssignN.expandPairs args slots).get? k = some (s, (none : Option ℚ)) ∧
        AssignN.isIgnoredSlot f s = false ∧
        ∀ j < k, ∃ sj vj, (AssignN.expandPairs args slots).get? j = some (sj, vj) ∧
          (vj ≠ none ∨ AssignN.isIgnoredSlot f sj = true) := by
  intro args
  induction args with
  | nil =>
      intro slots nActual msg h
      simp [AssignN.assignNLoopFrom] at h
  | cons arg args ih =>
      intro slots nActual msg h
      cases slots with
      | nil => simp [AssignN.assignNLoopFrom] at h
      | cons slot slots =>
          cases hproc : AssignN.processElems f (AssignN.pairsOfArg arg slot) nActual with
          | error e =>
              have hme : msg = e := by
                rw [AssignN.assignNLoopFrom] at h
                simp [hproc] at h
                exact h.symm
              obtain ⟨k, s, hm, hget, hign, hprior⟩ :=
                assignn_process_elems_error f _ nActual e hproc
              have hkl : k < (AssignN.pairsOfArg arg slot).length := by
                by_contra hnk
                have hn : (AssignN.pairsOfArg arg slot).get? k = none :=
                  List.get?_eq_none.mpr (by omega)
                rw [hn] at hget
                cases hget
              refine ⟨k, s, hme ▸ hm, ?_, hign, ?_⟩
              · rw [AssignN.expandPairs, List.get?_append hkl]
                exact hget
              · intro j hj
                obtain ⟨sj, vj, hg, ho⟩ := hprior j hj
                refine ⟨sj, vj, ?_, ho⟩
                rw [AssignN.expandPairs, List.get?_append (by omega)]
                exact hg
          | ok ws =>
              rw [AssignN.assignNLoopFrom] at h
              by_cases hcont :
                  nActual + (AssignN.pairsOfArg arg slot).length < nSlots
              · rw [hproc] at h
                simp only [if_pos hcont] at h
                cases hrec : AssignN.assignNLoopFrom f nSlots args slots
                    (nActual + (AssignN.pairsOfArg arg slot).length) with
                | ok w2 => rw [hrec] at h; simp at h
                | error e2 =>
                    rw [hrec] at h
                    have hme : msg = e2 := by
                      simp at h
                      exact h.symm
                    obtain ⟨k, s, hm, hget, hign, hprior⟩ := ih slots _ e2 hrec
                    have hlen : (AssignN.pairsOfArg arg slot).length ≤
                        (AssignN.pairsOfArg arg slot).length + k := by omega
                    refine ⟨(AssignN.pairsOfArg arg slot).length + k, s, ?_, ?_, hign, ?_⟩
                    · rw [hme, hm]
                      congr 1
                      omega
                    · rw [AssignN.expandPairs, List.get?_append_right hlen]
                      simpa using hget
                    · intro j hj
                      by_cases hjl : j < (AssignN.pairsOfArg arg slot).length
                      · have hg : (AssignN.pairsOfArg arg slot).get? j =
                            some ((AssignN.pairsOfArg arg slot).get ⟨j, hjl⟩) :=
                          List.get?_eq_get hjl
                        have hgood := assignn_process_elems_ok f _ nActual ws hproc j
                          ((AssignN.pairsOfArg arg slot).get ⟨j, hjl⟩).1
                          ((AssignN.pairsOfArg arg slot).get ⟨j, hjl⟩).2
                          (by rw [hg])
                        refine ⟨((AssignN.pairsOfArg arg slot).get ⟨j, hjl⟩).1,
                          ((AssignN.pairsOfArg arg slot).get ⟨j, hjl⟩).2, ?_, hgood⟩
                        rw [AssignN.expandPairs, List.get?_append hjl, hg]
                      · obtain ⟨sj, vj, hg, ho⟩ :=
                          hprior (j - (AssignN.pairsOfArg arg slot).length) (by omega)
                        refine ⟨sj, vj, ?_, ho⟩
                        rw [AssignN.expandPairs, List.get?_append_right (by omega)]
                        exact hg
              · rw [hproc] at h
                simp [hcont] at h

/-- When every expanded value is defined or ignored, the `assign_n`
loop succeeds. -/
theorem assignn_loop_total (f : AssignN.Frame) (nSlots : ℕ) :
    ∀ (args : List AssignN.RVal) (slots : List ℕ) (nActual : ℕ),
      (∀ j s v, (AssignN.expandPairs args slots).get? j = some (s, v) →
        (v ≠ none ∨ AssignN.isIgnoredSlot f s = true)) →
      ∃ ws, AssignN.assignNLoopFrom f nSlots args slots nActual = .ok ws := by
  intro args
  induction args with
  | nil =>
      intro slots n _
      exact ⟨[], by cases slots <;> rfl⟩
  | cons arg args ih =>
      intro slots n hgood
      cases slots with
      | nil => exact ⟨[], rfl⟩
      | cons slot slots =>
          obtain ⟨ws, hws⟩ := assignn_process_elems_total f
            (AssignN.pairsOfArg arg slot) n
            (fun j s v hg => by
              have hjl : j < (AssignN.pairsOfArg arg slot).length := by
                by_contra hnk
                rw [List.get?_eq_none.mpr (by omega)] at hg
                cases hg
              exact hgood j s v
                (by rw [AssignN.expandPairs, List.get?_append hjl]; exact hg))
          by_cases hcont : n + (AssignN.pairsOfArg arg slot).length < nSlots
          · obtain ⟨ws', hws'⟩ := ih slots (n + (AssignN.pairsOfArg arg slot).length)
              (fun j s v hg => hgood ((AssignN.pairsOfArg arg slot).length + j) s v (by
                rw [AssignN.expandPairs, List.get?_append_right (by omega)]
                simpa using hg))
            exact ⟨ws ++ ws',
              by simp [AssignN.assignNLoopFrom, hws, hcont, hws']⟩
          · exact ⟨ws, by simp [AssignN.assignNLoopFrom, hws, hcont]⟩

/-- C4 (amended): in `ASSIGNN`, an undefined value headed for a slot is
accepted iff — when the `IGNORED` auto-variable is defined and the slot
is a return slot — the slot's output number appears in the (sorted)
ignore matrix, the `%~` name test being *overridden* in that case, and
otherwise iff the slot's name begins with `%~`; an unaccepted undefined
value makes the handler signal "element number N undefined in return
list", N being the one-based position of the value among the assigned
values (all earlier values having been assigned); and when every value
is defined or accepted the handler completes without error. -/
theorem c4_assignn_undefined_policy (f : AssignN.Frame) (slot : ℕ)
    (mat : List Int) (nSlots : ℕ) (args : List AssignN.RVal)
    (slots : List ℕ) (msg : String) :
    (f.ignoredVar = some mat → mat.Sorted (· ≤ ·) →
      ((slot : Int) < AssignN.nReturns f.rawNReturns →
        (AssignN.isIgnoredSlot f slot = true ↔
          (AssignN.nReturns f.rawNReturns - 1 - (slot : Int)) ∈ mat)) ∧
      (¬ (slot : Int) < AssignN.nReturns f.rawNReturns →
        AssignN.isIgnoredSlot f slot =
          AssignN.beginsBlackHole (f.names.getD slot []))) ∧
    (f.ignoredVar = none →
      AssignN.isIgnoredSlot f slot =
        AssignN.beginsBlackHole (f.names.getD slot [])) ∧
    (AssignN.assignN f nSlots args slots = .error msg →
      ∃ k s, msg = AssignN.elementMsg (k + 1) ∧
        (AssignN.expandPairs args slots).get? k = some (s, (none : Option ℚ)) ∧
        AssignN.isIgnoredSlot f s = false ∧
        ∀ j < k, ∃ sj vj, (AssignN.expandPairs args slots).get? j = some (sj, vj) ∧
          (vj ≠ none ∨ AssignN.isIgnoredSlot f sj = true)) ∧
    ((∀ j s v, (AssignN.expandPairs args slots).get? j = some (s, v) →
        (v ≠ none ∨ AssignN.isIgnoredSlot f s = true)) →
      ∃ ws, AssignN.assignN f nSlots args slots = .ok ws) := by
  refine ⟨?_, ?_, ?_, ?_⟩
  · intro hig hsorted
    constructor
    · intro hlt
      simp only [AssignN.isIgnoredSlot, hig, if_pos hlt]
      rw [Bool.and_eq_true, decide_eq_true_eq, decide_eq_true_eq]
      exact assignn_sorted_lookup_mem _ mat hsorted
    · intro hlt
      simp only [AssignN.isIgnoredSlot, hig, if_neg hlt]
  · intro hig
    simp only [AssignN.isIgnoredSlot, hig]
  · intro h
    obtain ⟨k, s, hm, hget, hign, hprior⟩ :=
      assignn_loop_error f nSlots args slots 0 msg h
    exact ⟨k, s, by simpa using hm, hget, hign, hprior⟩
  · intro hgood
    exact assignn_loop_total f nSlots args slots 0 hgood

/-- C4 counterexample: an undefined value for return-slot 1 whose name
begins with `%~` (so the claim's disjunction accepts it) is rejected by
the handler because the defined `IGNORED` matrix `[5]` does not contain
the slot's output number: the handler raises "element number 1
undefined in return list" and unwinds. -/
theorem c4_assignn_ignored_counterexample :
    AssignN.assignN
        { names := [['x'], ['%', '~', 'a']], ignoredVar := some [5],
          rawNReturns := 3 }
        1 [.single none] [1] =
      Except.error (AssignN.elementMsg 1) ∧
    AssignN.claimAccept
        { names := [['x'], ['%', '~', 'a']], ignoredVar := some [5],
          rawNReturns := 3 } 1 = true := by
  exact ⟨rfl, rfl⟩

/-- C4 witness: with `IGNORED = [1]` defined and return slot 1 (output
number 1) the acceptance test succeeds through matrix membership, and
the error clause applied to the counterexample run yields the
one-based position 1. -/
theorem c4_assignn_undefined_policy_witness :
    AssignN.isIgnoredSlot
        { names := [[], []], ignoredVar := some [1], rawNReturns := 3 } 1 = true ∧
    (∃ k s, AssignN.elementMsg 1 = AssignN.elementMsg (k + 1) ∧
      (AssignN.expandPairs [.single none] [1]).get? k = some (s, (none : Option ℚ)) ∧
      AssignN.isIgnoredSlot
          { names := [['x'], ['%', '~', 'a']], ignoredVar := some [5],
            rawNReturns := 3 } s = false ∧
      ∀ j < k, ∃ sj vj,
        (AssignN.expandPairs [.single none] [1]).get? j = some (sj, vj) ∧
        (vj ≠ none ∨ AssignN.isIgnoredSlot
            { names := [['x'], ['%', '~', 'a']], ignoredVar := some [5],
              rawNReturns := 3 } sj = true)) := by
  constructor
  · exact (((c4_assignn_undefined_policy
      { names := [[], []], ignoredVar := some [1], rawNReturns := 3 }
      1 [1] 0 [] [] "").1 rfl (by simp)).1 (by decide)).mpr (by decide)
  · exact (c4_assignn_undefined_policy
      { names := [['x'], ['%', '~', 'a']], ignoredVar := some [5],
        rawNReturns := 3 }
      0 [] 1 [.single none] [1] (AssignN.elementMsg 1)).2.2.1 rfl

/-- C2: for every bytecode call returning normally through `RET` to a
bytecode caller: the values pushed onto the caller's stack number
exactly `max (1, caller_requested_nargout)` whatever the callee
produced (including after varargout expansion and on both the plain and
the overlapping copy path), so the caller's operand-stack top ends at
`caller_top + max (1, caller_requested_nargout)`; and when the caller
requested zero values, exactly the callee's first return value is moved
(to bind `ans`), a nil being pushed when the callee produced none. -/
theorem c2_ret_frame_balance (expects : ℕ) (rets : List RetOp.OVal) (overlap : Bool)
    (callerStack : List RetOp.OVal) (cellContents : Option (List RetOp.OVal)) :
    (RetOp.moveReturnsToCaller expects rets overlap).length = max 1 expects ∧
    (expects = 0 → RetOp.moveReturnsToCaller expects rets overlap = [rets.headD none]) ∧
    (RetOp.callerStackAfterRet callerStack expects
        (RetOp.expandVarargout expects rets cellContents) overlap).length =
      callerStack.length + max 1 expects := by
  have hlen : ∀ rs : List RetOp.OVal,
      (RetOp.moveReturnsToCaller expects rs overlap).length = max 1 expects := by
    intro rs
    unfold RetOp.moveReturnsToCaller
    by_cases h0 : expects = 0
    · subst h0
      by_cases hh : rs.length ≠ 0 <;> simp [hh]
    · cases overlap <;> simp [h0, List.length_take] <;> omega
  refine ⟨hlen rets, ?_, ?_⟩
  · intro h0
    subst h0
    unfold RetOp.moveReturnsToCaller
    cases rets <;> simp
  · simp [RetOp.callerStackAfterRet, hlen]

/-- C2 witness: a caller that requested zero values still receives
exactly the first of the callee's two returns, and the stack grows by
`max (1, 0) = 1`. -/
theorem c2_ret_frame_balance_witness :
    RetOp.moveReturnsToCaller 0 [some 7, some 8] false = [some 7] ∧
    (RetOp.moveReturnsToCaller 0 [some 7, some 8] false).length = max 1 0 := by
  have h := c2_ret_frame_balance 0 [some 7, some 8] false [] none
  exact ⟨by simpa using h.2.1 rfl, h.1⟩

/-- C1: for every generic binary arithmetic/comparison opcode with a
`_DBL` variant: the value pushed always equals the host's typed operator
dispatch applied to the two popped operands (in both the generic and the
specialized regime, since the precomputed scalar-double function is the
dispatch-table entry for the cached scalar type-id pair); a generic
instruction whose operands both carry the cached scalar-double type-id
rewrites its opcode byte to the `_DBL` variant; a `_DBL` instruction
whose operand type-ids no longer match rewrites back to the generic
form and re-dispatches; and a second execution on the same operands
changes neither the opcode byte nor the pushed value, so running the
same expression twice on operands of the same type yields
byte-identical code and bit-identical results. -/
theorem c1_binop_inline_cache (c : Binop.VMCtx) (i : Binop.BinInstr)
    (a b : Binop.BVal) :
    (Binop.stepBinop c i a b).2 = c.host.dispatch i.bop a b ∧
    (a.typeId = c.scalarTypeId → b.typeId = c.scalarTypeId →
      (Binop.stepBinop c (.generic i.bop) a b).1 = .dbl i.bop) ∧
    (¬ (a.typeId = c.scalarTypeId ∧ b.typeId = c.scalarTypeId) →
      (Binop.stepBinop c (.dbl i.bop) a b).1 = .generic i.bop) ∧
    Binop.stepBinop c (Binop.stepBinop c i a b).1 a b = Binop.stepBinop c i a b := by
  have hstep : ∀ op : Binop.BOp,
      Binop.stepBinop c (.generic op) a b = Binop.stepBinop c (.dbl op) a b := by
    intro op; rfl
  by_cases h : a.typeId = c.scalarTypeId ∧ b.typeId = c.scalarTypeId
  · refine ⟨?_, fun _ _ => ?_, fun hc => absurd h hc, ?_⟩
    · cases i <;>
        simp [Binop.stepBinop, Binop.execGeneric, Binop.execDbl, h,
          Binop.Host.dispatch, Binop.VMCtx.fnDbl, h.1, h.2, Binop.BinInstr.bop]
    · simp [Binop.stepBinop, Binop.execGeneric, h]
    · cases i <;>
        simp [Binop.stepBinop, Binop.execGeneric, Binop.execDbl, h]
  · refine ⟨?_, fun h1 h2 => absurd ⟨h1, h2⟩ h, fun _ => ?_, ?_⟩
    · cases i <;>
        simp [Binop.stepBinop, Binop.execGeneric, Binop.execDbl, h,
          Binop.BinInstr.bop]
    · simp [Binop.stepBinop, Binop.execDbl, h]
    · cases i <;>
        simp [Binop.stepBinop, Binop.execGeneric, Binop.execDbl, h]

/-- C1 witness: in the sample context, a generic `ADD` on two
scalar-typed operands rewrites itself to `ADD_DBL`, and an `ADD_DBL` on
a non-scalar operand rewrites itself back to the generic `ADD`. -/
theorem c1_binop_inline_cache_witness :
    (Binop.stepBinop Binop.sampleCtx
        (.generic .add) { typeId := 0, bits := 2 } { typeId := 0, bits := 3 }).1 =
      .dbl .add ∧
    (Binop.stepBinop Binop.sampleCtx
        (.dbl .add) { typeId := 1, bits := 2 } { typeId := 0, bits := 3 }).1 =
      .generic .add := by
  refine ⟨?_, ?_⟩
  · exact (c1_binop_inline_cache Binop.sampleCtx (.generic .add)
      { typeId := 0, bits := 2 } { typeId := 0, bits := 3 }).2.1 rfl rfl
  · exact (c1_binop_inline_cache Binop.sampleCtx (.dbl .add)
      { typeId := 1, bits := 2 } { typeId := 0, bits := 3 }).2.2.1 (by decide)

/-- C5 counterexample: `SUBASSIGN_ID_MAT_2D` storing the scalar `7` at
the out-of-bounds position `(2, 1)` of a `1 × 1` matrix jumps to the
generic handler while keeping its own opcode byte, contradicting the
claim that any mismatch rewrites the opcode byte back to
`SUBASSIGN_ID`. -/
theorem c5_subassign_oob_counterexample :
    Subasgn.subassignIdMat2d (.sca 7) (.sca 2) (.sca 1)
        (.fullMat { dims := [1, 1], elems := [5] }) = .fallbackKeep ∧
    Subasgn.SubasgnOut.fallbackKeep ≠ .fallbackRewrite := by
  have h1 : MatVals.truncQ ((2 : ℚ) - 1) = 1 := by norm_num [MatVals.truncQ]
  refine ⟨?_, by decide⟩
  simp [Subasgn.subassignIdMat2d, h1, MatVals.NDArr.rows]

/-- C5 (amended): when the target slot holds a full double matrix and
the rhs and all indices are scalar doubles with in-bounds integer index
values (the 2-D handler additionally requiring a 2-dimensional array),
`SUBASSIGN_ID_MAT_1D`/`SUBASSIGN_ID_MAT_2D` perform the bounds-checked
in-place element write; a wrong operand or receiver type rewrites the
opcode byte back to `SUBASSIGN_ID` and the generic handler performs the
assignment; an out-of-bounds or non-integer index (or a non-2-D array in
the 2-D handler) also sends the assignment to the generic handler but
leaves the specialized opcode byte in place. -/
theorem c5_subassign_scalar_into_matrix (v q1 q2 q : ℚ) (arr : MatVals.NDArr)
    (rhs a1 a2 slotVal : MatVals.SVal) :
    ((MatVals.truncQ (q1 - 1) : ℚ) = q1 - 1 → 0 ≤ MatVals.truncQ (q1 - 1) →
     MatVals.truncQ (q1 - 1) < arr.rows →
     (MatVals.truncQ (q2 - 1) : ℚ) = q2 - 1 → 0 ≤ MatVals.truncQ (q2 - 1) →
     MatVals.truncQ (q2 - 1) < arr.cols → arr.ndims = 2 →
      Subasgn.subassignIdMat2d (.sca v) (.sca q1) (.sca q2) (.fullMat arr) =
        .write ⟨arr.dims,
          arr.elems.set (MatVals.truncQ (q1 - 1) + MatVals.truncQ (q2 - 1) * arr.rows).toNat v⟩) ∧
    ((MatVals.truncQ (q - 1) : ℚ) = q - 1 → 0 ≤ MatVals.truncQ (q - 1) →
     MatVals.truncQ (q - 1) < arr.numel →
      Subasgn.subassignIdMat1d (.sca v) (.sca q) (.fullMat arr) =
        .write ⟨arr.dims, arr.elems.set (MatVals.truncQ (q - 1)).toNat v⟩) ∧
    (Subasgn.typeGuard2d rhs a1 a2 slotVal = false →
      Subasgn.subassignIdMat2d rhs a1 a2 slotVal = .fallbackRewrite) ∧
    (Subasgn.typeGuard1d rhs a1 slotVal = false →
      Subasgn.subassignIdMat1d rhs a1 slotVal = .fallbackRewrite) ∧
    (((MatVals.truncQ (q1 - 1) : ℚ) ≠ q1 - 1 ∨ MatVals.truncQ (q1 - 1) < 0 ∨
      arr.rows ≤ MatVals.truncQ (q1 - 1) ∨
      (MatVals.truncQ (q2 - 1) : ℚ) ≠ q2 - 1 ∨ MatVals.truncQ (q2 - 1) < 0 ∨
      arr.cols ≤ MatVals.truncQ (q2 - 1) ∨ arr.ndims ≠ 2) →
      Subasgn.subassignIdMat2d (.sca v) (.sca q1) (.sca q2) (.fullMat arr) =
        .fallbackKeep) ∧
    (((MatVals.truncQ (q - 1) : ℚ) ≠ q - 1 ∨ MatVals.truncQ (q - 1) < 0 ∨
      arr.numel ≤ MatVals.truncQ (q - 1)) →
      Subasgn.subassignIdMat1d (.sca v) (.sca q) (.fullMat arr) = .fallbackKeep) := by
  refine ⟨?_, ?_, ?_, ?_, ?_, ?_⟩
  · intro hi1 hge1 hlt1 hi2 hge2 hlt2 hnd
    simp only [Subasgn.subassignIdMat2d]
    rw [if_neg (by push_neg; exact ⟨hlt1, hge1, hi1⟩),
        if_neg (by push_neg; exact ⟨hlt2, hge2, hi2⟩),
        if_neg (by simp [hnd])]
  · intro hi hge hlt
    simp only [Subasgn.subassignIdMat1d]
    rw [if_neg (by push_neg; exact ⟨hlt, hge, hi⟩)]
  · intro hg
    cases rhs <;> cases a1 <;> cases a2 <;> cases slotVal <;>
      simp_all [Subasgn.typeGuard2d, Subasgn.subassignIdMat2d]
  · intro hg
    cases rhs <;> cases a1 <;> cases slotVal <;>
      simp_all [Subasgn.typeGuard1d, Subasgn.subassignIdMat1d]
  · intro hviol
    simp only [Subasgn.subassignIdMat2d]
    split
    · rfl
    · split
      · rfl
      · split
        · rfl
        · rename_i h1 h2 h3
          exfalso
          push_neg at h1 h2 h3
          rcases hviol with h | h | h | h | h | h | h
          · exact h h1.2.2
          · omega
          · omega
          · exact h h2.2.2
          · omega
          · omega
          · exact h h3
  · intro hviol
    simp only [Subasgn.subassignIdMat1d]
    split
    · rfl
    · rename_i h1
      exfalso
      push_neg at h1
      rcases hviol with h | h | h
      · exact h h1.2.2
      · omega
      · omega

/-- C5 witness: `M = [1 2; 3 4]; M(2,1) = 9` writes in place
(column-major element 1), `M(1.5) = 9` on the same matrix keeps the
specialized opcode and falls back, and a cell-typed rhs rewrites the
opcode to `SUBASSIGN_ID`. -/
theorem c5_subassign_scalar_into_matrix_witness :
    Subasgn.subassignIdMat2d (.sca 9) (.sca 2) (.sca 1)
        (.fullMat { dims := [2, 2], elems := [1, 3, 2, 4] }) =
      .write { dims := [2, 2], elems := [1, 9, 2, 4] } ∧
    Subasgn.subassignIdMat1d (.sca 9) (.sca (3 / 2))
        (.fullMat { dims := [2, 2], elems := [1, 3, 2, 4] }) = .fallbackKeep ∧
    Subasgn.subassignIdMat2d (.other 12) (.sca 2) (.sca 1)
        (.fullMat { dims := [2, 2], elems := [1, 3, 2, 4] }) = .fallbackRewrite := by
  have ht1 : MatVals.truncQ ((2 : ℚ) - 1) = 1 := by norm_num [MatVals.truncQ]
  have ht0 : MatVals.truncQ ((1 : ℚ) - 1) = 0 := by norm_num [MatVals.truncQ]
  have htn : (MatVals.truncQ ((3 : ℚ) / 2 - 1) : ℚ) ≠ (3 : ℚ) / 2 - 1 := by
    norm_num [MatVals.truncQ]
  have hr : (MatVals.NDArr.mk [2, 2] [1, 3, 2, 4]).rows = 2 := rfl
  have hc : (MatVals.NDArr.mk [2, 2] [1, 3, 2, 4]).cols = 2 := rfl
  have h := c5_subassign_scalar_into_matrix 9 2 1 (3 / 2)
    { dims := [2, 2], elems := [1, 3, 2, 4] } (.other 12) (.sca 2) (.sca 1)
    (.fullMat { dims := [2, 2], elems := [1, 3, 2, 4] })
  refine ⟨?_, ?_, ?_⟩
  · have hw := h.1 (by rw [ht1]; try norm_num) (by rw [ht1]; try norm_num)
      (by rw [ht1, hr]; try norm_num) (by rw [ht0]; try norm_num) (by rw [ht0]; try norm_num)
      (by rw [ht0, hc]; try norm_num) rfl
    rw [ht1, ht0, hr] at hw
    exact hw
  · exact h.2.2.2.2.2 (Or.inl htn)
  · exact h.2.2.1 rfl

/-- C6 counterexample: `INDEX_ID1_MAT_1D` with the scalar-double index
`1.5` on a dense `2 × 1` matrix raises the invalid-index error itself
and leaves its own opcode byte specialized — it does not fall back to
the generic opcode. -/
theorem c6_index_nonint_counterexample :
    IndexSpec.indexId1Mat1d (.sca (3 / 2))
        (.fullMat { dims := [2, 1], elems := [10, 20] }) =
      (.specializedMat1d, .indexErr) ∧
    IndexSpec.IdxOpcode.specializedMat1d ≠ .genericNargout1 := by
  have h : (MatVals.truncQ ((3 : ℚ) / 2) : ℚ) ≠ (3 : ℚ) / 2 := by
    norm_num [MatVals.truncQ]
  exact ⟨by simp [IndexSpec.indexId1Mat1d, IndexSpec.idxCore, h], by decide⟩

/-- C6 (amended): executing `INDEX_ID1_MAT_1D` with a scalar-double
index whose value is not an integer raises the invalid-index error
directly in the specialized handler, keeping the specialized opcode
byte; the result nevertheless equals executing the generic
`INDEX_ID_NARGOUT1` on the same operands (which re-specializes for a
scalar index on a dense matrix and runs the same core); fallback with an
opcode-byte rewrite to the generic form happens exactly on a type
mismatch (non-scalar index or non-matrix receiver), where the generic
handler's `simple_subsref` performs the read. -/
theorem c6_index_nonint_fallback (q : ℚ) (arr : MatVals.NDArr)
    (a m : MatVals.SVal) :
    ((MatVals.truncQ q : ℚ) ≠ q →
      IndexSpec.indexId1Mat1d (.sca q) (.fullMat arr) =
        (.specializedMat1d, .indexErr)) ∧
    IndexSpec.indexIdNargout1 a m = IndexSpec.indexId1Mat1d a m ∧
    ((∀ q', a ≠ MatVals.SVal.sca q') ∨ (∀ arr', m ≠ MatVals.SVal.fullMat arr') →
      IndexSpec.indexId1Mat1d a m = (.genericNargout1, .hostSubsref)) := by
  refine ⟨?_, ?_, ?_⟩
  · intro h
    simp [IndexSpec.indexId1Mat1d, IndexSpec.idxCore, h]
  · cases a <;> cases m <;> rfl
  · intro hmm
    cases a <;> cases m <;> first
      | rfl
      | (exfalso
         rcases hmm with h | h
         · exact h _ rfl
         · exact h _ rfl)

/-- C6 witness: the non-integer index `1.5` on a concrete `2 × 1` dense
matrix raises the index error with the opcode kept, and a cell-typed
receiver takes the rewritten generic fallback. -/
theorem c6_index_nonint_fallback_witness :
    IndexSpec.indexId1Mat1d (.sca (3 / 2))
        (.fullMat { dims := [2, 1], elems := [10, 20] }) =
      (.specializedMat1d, .indexErr) ∧
    IndexSpec.indexId1Mat1d (.sca 1) (.other 3) =
      (.genericNargout1, .hostSubsref) := by
  refine ⟨?_, ?_⟩
  · exact (c6_index_nonint_fallback (3 / 2) { dims := [2, 1], elems := [10, 20] }
      (.sca 1) (.other 3)).1 (by norm_num [MatVals.truncQ])
  · exact (c6_index_nonint_fallback (3 / 2) { dims := [2, 1], elems := [10, 20] }
      (.sca 1) (.other 3)).2.2 (Or.inr (fun arr' h => nomatch h))

/-- C3: `FOR_SETUP` computes the iteration count `n` as the number of
elements for scalars and ranges, the number of columns for
matrices/cells/strings/structs with nonzero row count and zero when the
row count is zero (a `0×3` cell gives zero iterations, a `3×0` matrix
gives zero iterations, a scalar gives one iteration); it pushes `n` and
a counter initialized to `-1`, and when `n = 0` with a defined iterable
it still assigns the iterable to the induction slot. -/
theorem c3_for_setup_iteration_count (it : Iterable) :
    (forSetup it).n = claimForCount it ∧
    (forSetup it).counter = -1 ∧
    ((forSetup it).assigned =
      if (forSetup it).n = 0 ∧ it.isDefined then some it else none) ∧
    (forSetup (.cellArr 0 3)).n = 0 ∧
    (forSetup (.matrix 3 0)).n = 0 ∧
    (forSetup (.scalar 5)).n = 1 := by
  refine ⟨?_, ?_, ?_, by decide, by decide, by decide⟩
  · cases it <;> simp [forSetup, claimForCount, Iterable.numel, Iterable.rows2,
      Iterable.cols2]
  · cases it <;> rfl
  · cases it <;> simp [forSetup, Iterable.isDefined, or_iff_not_imp_left]

/-- C7 counterexample: executing `JMP_IF` on a defined non-bool
condition performs no `octave_quit` invocation at all, contradicting the
claim that the host signal-check function is invoked at each execution
of `JMP_IF`. -/
theorem c7_jmp_if_signal_check_counterexample :
    (Signals.jmpIfStep (.defined true)).octaveQuitCalls = 0 ∧
    ¬ 0 < (Signals.jmpIfStep (.defined true)).octaveQuitCalls := by
  exact ⟨rfl, by decide⟩

/-- C7 (amended): the host signal-check function `octave_quit` is
invoked exactly once at every execution of `HANDLE_SIGNALS` and at every
`FOR_COND` step, and is not invoked by `JMP_IF` or `JMP_IFN` (on any
condition value); between the former points signal delivery is
deferred. -/
theorem c7_signal_check_points (v : Signals.JmpVal) (s : Signals.ForCondState) :
    Signals.handleSignalsStep = 1 ∧
    (Signals.forCondStep s).2 = 1 ∧
    (Signals.jmpIfStep v).octaveQuitCalls = 0 ∧
    (Signals.jmpIfnStep v).octaveQuitCalls = 0 := by
  refine ⟨rfl, ?_, ?_, ?_⟩
  · by_cases h : s.counter + 1 = s.n <;> simp [Signals.forCondStep, h]
  · cases v <;> rfl
  · cases v <;> rfl

/-- C8 counterexample: the scenario `a = {}; c = {a{:}, a{:}};` builds a
cell of size `0 × 0`, not the claimed `1 × 0`. -/
theorem c8_empty_cslist_cell_counterexample :
    CellBuild.sizeOfResult CellBuild.emptyCsListScenario = some (0, 0) ∧
    CellBuild.sizeOfResult CellBuild.emptyCsListScenario ≠ some (1, 0) := by
  exact ⟨rfl, by decide⟩

/-- C8 (amended): evaluating `a = {}; c = {a{:}, a{:}};` produces a cell
`c` with `size (c) == [0 0]` via the `APPEND_CELL last = 3` (single-row
terminal append) rule, which, when the single row stayed empty, resizes
the under-filled guess to zero rows and zero columns; in general a
terminal `last = 3` append of an empty cs-list on an untouched row
(`i_col = 0 < cols`) resizes the cell to `0 × 0`. -/
theorem c8_empty_cslist_cell_size :
    CellBuild.emptyCsListScenario =
      Except.ok { rows := 0, cols := 0, writes := [], iCol := 0, iRow := 0 } ∧
    ∀ st : CellBuild.CellState, st.iCol = 0 → 0 < st.cols →
      CellBuild.appendCell 3 (.cs []) st = Except.ok { st with rows := 0, cols := 0 } := by
  refine ⟨rfl, ?_⟩
  intro st h0 hc
  have hc' : ¬ st.cols < 0 := by omega
  simp [CellBuild.appendCell, h0, hc, hc.le, hc']

/-- C8 amended-theorem witness: the general `last = 3` clause applied to
the concrete state `PUSH_CELL 2 3` leaves. -/
theorem c8_empty_cslist_cell_size_witness :
    CellBuild.appendCell 3 (.cs []) (CellBuild.pushCell 2 3) =
      Except.ok { rows := 0, cols := 0, writes := [], iCol := 0, iRow := 0 } := by
  have h := (c8_empty_cslist_cell_size).2 (CellBuild.pushCell 2 3) rfl (by decide)
  simpa [CellBuild.pushCell] using h

/-- C9: at a non-terminating `FOR_COMPLEX_COND` step, the branch for the
key-slot write is taken on the *value* slot's wrapper status: with a
global key slot and a plain value slot the field name is stored directly
into the key slot, destroying the wrapper instead of writing through its
setter (compare `claimedWrite`, the slot-disciplined write the claim
prescribes); with a ref value slot and a plain key slot the handler
calls `ref_rep ()` on the non-ref key slot. -/
theorem c9_for_complex_cond_key_write_bug :
    ForComplex.forComplexCondWrite ['k'] 3
        { keySlot := .refWrap 7, valSlot := .direct none, store := [] } =
      Except.ok { keySlot := .direct (some (.keyStr ['k'])),
                  valSlot := .direct (some (.contents 3)), store := [] } ∧
    ForComplex.claimedWrite ['k'] 3
        { keySlot := .refWrap 7, valSlot := .direct none, store := [] } =
      { keySlot := .refWrap 7, valSlot := .direct (some (.contents 3)),
        store := [(7, .keyStr ['k'])] } ∧
    ForComplex.forComplexCondWrite ['k'] 3
        { keySlot := .direct none, valSlot := .refWrap 4, store := [] } =
      Except.error () := by
  exact ⟨rfl, rfl, rfl⟩

/-- C10 counterexample: assigning the non-empty cs-list
`(undefined, 5)` raises `RHS_UNDEF_IN_ASSIGNMENT` instead of silently
assigning its first element. -/
theorem c10_assign_cslist_counterexample :
    AssignOp.assignDispatch (.direct (some 1)) [] (.csl [none, some 5]) =
      Except.error .rhsUndefInAssignment ∧
    ([none, some 5] : List (Option ℚ)) ≠ [] := by
  exact ⟨rfl, by simp⟩

/-- C10 (amended): for `ASSIGN` of a cs-list rhs into a slot: an empty
cs-list raises `INVALID_N_EL_RHS_IN_ASSIGNMENT` with the slot unchanged;
a non-empty cs-list whose first element is defined silently assigns only
that first element to the slot (through the slot's reference wrapper
when present) and discards the remaining elements without error; a
non-empty cs-list whose first element is undefined raises
`RHS_UNDEF_IN_ASSIGNMENT`. -/
theorem c10_assign_cslist_first_element (slot : AssignOp.ASlot)
    (store : List (ℕ × ℚ)) (x : ℚ) (rest : List (Option ℚ)) (g : ℕ)
    (v0 : Option ℚ) :
    AssignOp.assignDispatch slot store (.csl []) =
      Except.error .invalidNElRhsInAssignment ∧
    (∀ w : Option ℚ, AssignOp.assignDispatch (.direct w) store (.csl (some x :: rest)) =
      Except.ok (.direct (some x), store)) ∧
    AssignOp.assignDispatch (.refWrap g) store (.csl (some x :: rest)) =
      Except.ok (.refWrap g, (g, x) :: store) ∧
    AssignOp.assignDispatch slot store (.csl (none :: rest)) =
      Except.error .rhsUndefInAssignment ∧
    AssignOp.assignDispatch slot store (.csl (v0 :: rest)) =
      AssignOp.assignDispatch slot store (.csl [v0]) := by
  refine ⟨rfl, fun w => rfl, rfl, rfl, ?_⟩
  cases v0 <;> rfl

end OctaveVM
